import Mathlib

/-!
Shallow embedding of the `react-i18n-ai` translation core:

* `hashText` — the rolling 32-bit fingerprint from `src/types.ts` (`hashText`);
* the localStorage-backed cache from `src/translationCache.ts`
  (`loadCache`, `saveCache`, `getCachedTranslation`, `setCachedTranslation`);
* the provider indirection from `src/aiTranslate.ts` (`aiTranslate`);
* the coordinator `t` from `useTranslation` in `src/types.ts`.

JavaScript machine integers are modelled as `Int` with explicit truncation to
the signed 32-bit range.  Strings are Lean `String`s; `charCodeAt` is modelled
by expanding each character into its UTF-16 code units.  Operations that can
throw in JavaScript (`localStorage.getItem`/`setItem`, `JSON.parse`, the
provider function) are modelled as `Except`-valued primitives; the `try/catch`
blocks of the source appear as explicit `match`es on those primitives, so the
totality of the derived functions mirrors the source's absorption of failures.
The coordinator is instrumented with an event log recording cache reads, cache
writes, calls of the provider indirection (`aiTranslate`) and invocations of
the registered provider function, so that claims about "no provider call" or
"provider invoked at most once" are statable.
-/

namespace ReactI18nAi

/-- JavaScript `ToInt32`: wrap an integer into the signed 32-bit range. -/
def toInt32 (n : Int) : Int := (n + 2147483648) % 4294967296 - 2147483648

/-- UTF-16 code units of a character, as JavaScript's `charCodeAt` yields them
(one unit below `0x10000`, a surrogate pair above). -/
def utf16Units (c : Char) : List Nat :=
  let n := c.toNat
  if n < 65536 then [n]
  else [55296 + (n - 65536) / 1024, 56320 + (n - 65536) % 1024]

/-- The sequence of `charCodeAt` values of a string. -/
def charCodes (s : String) : List Nat := (s.data.map utf16Units).flatten

/-- One iteration of the loop of `hashText`:
`hash = ((hash << 5) - hash) + chr; hash |= 0;` where `<<` is the JavaScript
32-bit shift and `|= 0` truncates to signed 32 bits. -/
def hashStep (hash : Int) (chr : Nat) : Int :=
  toInt32 (toInt32 (hash * 32) - hash + chr)

/-- `hashText` from `src/types.ts`: rolling hash over the character codes,
starting at 0, returned in decimal string form. -/
def hashText (text : String) : String :=
  toString ((charCodes text).foldl hashStep 0)

/-- Reference rolling hash, written from the specification's words: starting
from accumulator 0, for each character code update
`acc = (acc << 5) - acc + code` and truncate to the 32-bit signed range after
every step, then return the decimal string form of the final accumulator. -/
def hashStepSpec (acc : Int) (code : Nat) : Int :=
  toInt32 (acc * 32 - acc + code)

/-- Reference fingerprint per the specification (to compare with `hashText`). -/
def hashTextSpec (text : String) : String :=
  toString ((charCodes text).foldl hashStepSpec 0)

/-! ### Cache data model -/

/-- Inner map of one language: fingerprint → translated text
(a JavaScript object, modelled as an association list). -/
abbrev LangCache := List (String × String)

/-- The whole cache blob: language → (fingerprint → translated text). -/
abbrev TranslationCache := List (String × LangCache)

/-- Property read `m[hash]` on the inner object. -/
def lcGet : LangCache → String → Option String
  | [], _ => none
  | (k, w) :: rest, hash => if k = hash then some w else lcGet rest hash

/-- Property write `m[hash] = v` on the inner object (in-place upsert). -/
def lcSet (m : LangCache) (hash v : String) : LangCache :=
  match m with
  | [] => [(hash, v)]
  | (k, w) :: rest =>
    if k = hash then (k, v) :: rest else (k, w) :: lcSet rest hash v

/-- `cache[language]?.[hash]`. -/
def cacheGet : TranslationCache → String → String → Option String
  | [], _, _ => none
  | (k, m) :: rest, lang, hash => if k = lang then lcGet m hash else cacheGet rest lang hash

/-- `if (!cache[language]) cache[language] = {}; cache[language][hash] = value`. -/
def cacheSet (c : TranslationCache) (lang hash v : String) : TranslationCache :=
  match c with
  | [] => [(lang, lcSet [] hash v)]
  | (k, m) :: rest =>
    if k = lang then (k, lcSet m hash v) :: rest else (k, m) :: cacheSet rest lang hash v

/-! ### Storage medium -/

/-- The raw blob held under the cache key, as the bulk of the development
needs it: either a string whose `JSON.parse` throws, or one that parses to a
cache object.  A blob that parses successfully to a non-object value (such as
the JSON text `null`) is outside this type; the refined read-path model
(`JsParsed` / `StoredBlob` below) represents it, and there the read is not
total. -/
inductive RawBlob
  | corrupt
  | wellFormed (c : TranslationCache)
deriving DecidableEq

/-- What a `localStorage.getItem` call yields: a thrown error, `null`
(key absent), or a stored blob. -/
inductive ReadOutcome
  | raiseOnRead
  | missing
  | stored (b : RawBlob)
deriving DecidableEq

/-- The storage medium: what reads currently yield, and whether write
attempts fail (throw). -/
structure Store where
  outcome : ReadOutcome
  writeFails : Bool
deriving DecidableEq

/-- `localStorage.getItem(CACHE_KEY)`: may throw. -/
def localStorageGetItem : ReadOutcome → Except Unit (Option RawBlob)
  | .raiseOnRead => .error ()
  | .missing => .ok none
  | .stored b => .ok (some b)

/-- `JSON.parse(raw)` restricted to `RawBlob`: throws on a corrupt blob,
yields the cache object otherwise.  The refined `jsonParseJs` below also
covers successful parses to non-object values. -/
def jsonParse : RawBlob → Except Unit TranslationCache
  | .corrupt => .error ()
  | .wellFormed c => .ok c

/-- `loadCache` from `src/translationCache.ts`:
`try { const raw = localStorage.getItem(CACHE_KEY); return raw ? JSON.parse(raw) : {}; } catch { return {}; }`. -/
def loadCache (o : ReadOutcome) : TranslationCache :=
  match localStorageGetItem o with
  | .error _ => []
  | .ok none => []
  | .ok (some b) =>
    match jsonParse b with
    | .error _ => []
    | .ok c => c

/-- `localStorage.setItem(CACHE_KEY, JSON.stringify(cache))`: may throw. -/
def localStorageSetItem (st : Store) (c : TranslationCache) : Except Unit Store :=
  if st.writeFails then .error () else .ok { st with outcome := .stored (.wellFormed c) }

/-- `saveCache` from `src/translationCache.ts`:
`try { localStorage.setItem(...) } catch {}`. -/
def saveCache (st : Store) (c : TranslationCache) : Store :=
  match localStorageSetItem st c with
  | .error _ => st
  | .ok st2 => st2

/-- `getCachedTranslation(language, hash)`. -/
def getCachedTranslation (st : Store) (language hash : String) : Option String :=
  cacheGet (loadCache st.outcome) language hash

/-- `setCachedTranslation(language, hash, value)`. -/
def setCachedTranslation (st : Store) (language hash value : String) : Store :=
  saveCache st (cacheSet (loadCache st.outcome) language hash value)

/-! ### Provider indirection -/

/-- A registered provider function `(text, targetLanguage) => Promise<string>`:
`.ok s` models resolving with `s`; `.error ()` models throwing synchronously
or rejecting (both are caught by the same `try` in `aiTranslate`). -/
abbrev Provider := String → String → Except Unit String

structure AITranslationRequest where
  text : String
  targetLanguage : String

structure AITranslationResponse where
  translatedText : String
  detectedSourceLanguage : Option String
deriving DecidableEq

/-- Observable events of one coordinator call. -/
inductive Event
  | cacheRead (language hash : String)
  | providerCall (text targetLanguage : String)
  | aiCall (text targetLanguage : String)
  | cacheWrite (language hash value : String)
deriving DecidableEq

/-- The fallback translation `` `[${req.targetLanguage}] ${req.text}` ``. -/
def fallbackText (targetLanguage text : String) : String :=
  "[" ++ targetLanguage ++ "] " ++ text

/-- `aiTranslate` from `src/aiTranslate.ts`, instrumented with the list of
provider invocations it performs.  A registered provider is always invoked;
its failure is caught and the mock fallback returned. -/
def aiTranslate (provider : Option Provider) (req : AITranslationRequest) :
    AITranslationResponse × List Event :=
  match provider with
  | some p =>
    match p req.text req.targetLanguage with
    | .ok translated =>
      (⟨translated, some "en"⟩, [.providerCall req.text req.targetLanguage])
    | .error _ =>
      (⟨fallbackText req.targetLanguage req.text, some "en"⟩,
        [.providerCall req.text req.targetLanguage])
  | none => (⟨fallbackText req.targetLanguage req.text, some "en"⟩, [])

/-! ### Coordinator -/

/-- JavaScript truthiness of `string | undefined`:
`undefined` and the empty string are falsy. -/
def truthy : Option String → Bool
  | none => false
  | some s => s != ""

/-- `cached.startsWith(p)` (code-unit prefix test). -/
def jsStartsWith (s p : String) : Bool := List.isPrefixOf p.data s.data

/-- The state the coordinator closure reads: the current language, the
process-wide provider slot, and the storage medium. -/
structure TState where
  language : String
  provider : Option Provider
  store : Store

/-- Result of one `t(text)` call: the resolved string, the storage medium
afterwards, and the log of observable events, in order. -/
structure TResult where
  value : String
  store : Store
  events : List Event

/-- The coordinator `t` from `useTranslation` in `src/types.ts`:

```
if (language === 'en') return text;
const hash = hashText(text);
let cached = getCachedTranslation(language, hash);
const isFallback = cached && cached.startsWith(`[${language}] `);
if (cached && !isFallback) return cached;
const res = await aiTranslate({ text, targetLanguage: language });
setCachedTranslation(language, hash, res.translatedText);
return res.translatedText;
```

`cached && ...` is JavaScript truthiness: an `undefined` or empty cached
value is falsy. -/
def t (st : TState) (text : String) : TResult :=
  if st.language == "en" then ⟨text, st.store, []⟩
  else
    let hash := hashText text
    let cached := getCachedTranslation st.store st.language hash
    let isFallback :=
      truthy cached && jsStartsWith (cached.getD "") ("[" ++ st.language ++ "] ")
    if truthy cached && !isFallback then
      ⟨cached.getD "", st.store, [.cacheRead st.language hash]⟩
    else
      let res := aiTranslate st.provider ⟨text, st.language⟩
      let st2 := setCachedTranslation st.store st.language hash res.1.translatedText
      ⟨res.1.translatedText, st2,
        .cacheRead st.language hash :: .aiCall text st.language ::
          (res.2 ++ [.cacheWrite st.language hash res.1.translatedText])⟩

/-- The state after a completed `t` call (language and provider unchanged). -/
def afterT (st : TState) (r : TResult) : TState := { st with store := r.store }

/-- Number of invocations of the registered provider function in a log. -/
def countProviderCalls (evs : List Event) : Nat :=
  evs.countP (fun e => match e with | .providerCall _ _ => true | _ => false)

/-- The branch condition of the coordinator, `cached && !isFallback`:
a cached value is trusted when it is truthy (present and non-empty) and does
not look like a fallback marker for the current language. -/
def cacheTrusted (cached : Option String) (language : String) : Bool :=
  truthy cached && !(truthy cached && jsStartsWith (cached.getD "") ("[" ++ language ++ "] "))

/-! ### Refined read path: blobs that deserialize to non-object values -/

/-- What `JSON.parse` can yield for the stored blob, as far as the read path
distinguishes the values: `null` (property access on it throws a TypeError),
a non-null primitive such as a number, string or boolean (property access
yields `undefined`), or an object carrying the cache entries. -/
inductive JsParsed
  | nullValue
  | primitive
  | object (c : TranslationCache)
deriving DecidableEq

/-- A stored blob, refined from `RawBlob`: deserialization either throws, or
succeeds with any `JsParsed` value — including the JSON text `null`, which
parses successfully to a non-object. -/
inductive StoredBlob
  | unparsable
  | parsesTo (v : JsParsed)
deriving DecidableEq

/-- What a `localStorage.getItem` call yields, over refined blobs. -/
inductive ReadOutcomeJs
  | raiseOnRead
  | missing
  | stored (b : StoredBlob)
deriving DecidableEq

/-- `localStorage.getItem(CACHE_KEY)` over refined blobs: may throw. -/
def localStorageGetItemJs : ReadOutcomeJs → Except Unit (Option StoredBlob)
  | .raiseOnRead => .error ()
  | .missing => .ok none
  | .stored b => .ok (some b)

/-- `JSON.parse(raw)` over refined blobs: throws exactly when the blob is
unparsable; a parse to `null` or a primitive succeeds. -/
def jsonParseJs : StoredBlob → Except Unit JsParsed
  | .unparsable => .error ()
  | .parsesTo v => .ok v

/-- `loadCache` over refined blobs: the catch absorbs a throwing read and a
throwing parse (both give `{}`, as does a missing key), but a parse that
succeeds with `null` or a primitive is returned as-is — nothing in
`loadCache` checks the parsed value's shape. -/
def loadCacheJs (o : ReadOutcomeJs) : JsParsed :=
  match localStorageGetItemJs o with
  | .error _ => .object []
  | .ok none => .object []
  | .ok (some b) =>
    match jsonParseJs b with
    | .error _ => .object []
    | .ok v => v

/-- `getCachedTranslation(language, hash)` over refined blobs:
`cache[language]?.[hash]` throws an uncaught TypeError when `cache` is `null`
— the optional chain guards only the result of `cache[language]`, which is
evaluated first — yields `undefined` (a miss) when `cache` is a non-null
primitive, and is the map lookup when `cache` is an object.  There is no
try/catch in `getCachedTranslation`, so the `null` case escapes to the
caller. -/
def getCachedTranslationJs (o : ReadOutcomeJs) (language hash : String) :
    Except Unit (Option String) :=
  match loadCacheJs o with
  | .nullValue => .error ()
  | .primitive => .ok none
  | .object c => .ok (cacheGet c language hash)

/-! ### Basic lemmas about the cache maps -/

theorem lcGet_lcSet_same (m : LangCache) (hash v : String) :
    lcGet (lcSet m hash v) hash = some v := by
  induction m with
  | nil => simp [lcGet, lcSet]
  | cons kv rest ih =>
    obtain ⟨k, w⟩ := kv
    by_cases hk : k = hash
    · subst hk
      simp [lcGet, lcSet]
    · simp [lcGet, lcSet, if_neg hk, ih]

theorem lcGet_lcSet_ne (m : LangCache) (hash v h2 : String) (hne : h2 ≠ hash) :
    lcGet (lcSet m hash v) h2 = lcGet m h2 := by
  induction m with
  | nil => simp [lcGet, lcSet, Ne.symm hne]
  | cons kv rest ih =>
    obtain ⟨k, w⟩ := kv
    by_cases hk : k = hash
    · subst hk
      simp [lcGet, lcSet, Ne.symm hne]
    · simp only [lcSet, if_neg hk]
      by_cases hk2 : k = h2
      · simp [lcGet, hk2]
      · simp [lcGet, if_neg hk2, ih]

theorem lcSet_idem (m : LangCache) (hash v : String) :
    lcSet (lcSet m hash v) hash v = lcSet m hash v := by
  induction m with
  | nil => simp [lcSet]
  | cons kv rest ih =>
    obtain ⟨k, w⟩ := kv
    by_cases hk : k = hash
    · subst hk
      simp [lcSet]
    · simp [lcSet, if_neg hk, ih]

theorem cacheGet_cacheSet_same (c : TranslationCache) (lang hash v : String) :
    cacheGet (cacheSet c lang hash v) lang hash = some v := by
  induction c with
  | nil => simp [cacheGet, cacheSet, lcGet_lcSet_same]
  | cons kv rest ih =>
    obtain ⟨k, m⟩ := kv
    by_cases hk : k = lang
    · subst hk
      simp [cacheGet, cacheSet, lcGet_lcSet_same]
    · simp [cacheGet, cacheSet, if_neg hk, ih]

theorem cacheGet_cacheSet_ne (c : TranslationCache) (lang hash v l2 h2 : String)
    (hne : l2 ≠ lang ∨ h2 ≠ hash) :
    cacheGet (cacheSet c lang hash v) l2 h2 = cacheGet c l2 h2 := by
  induction c with
  | nil =>
    by_cases hl : lang = l2
    · subst hl
      have hh : h2 ≠ hash := by
        rcases hne with hl2 | hh2
        · exact absurd rfl hl2
        · exact hh2
      simp [cacheGet, cacheSet, lcGet, lcGet_lcSet_ne _ _ _ _ hh, Ne.symm hh]
    · simp [cacheGet, cacheSet, if_neg hl]
  | cons kv rest ih =>
    obtain ⟨k, m⟩ := kv
    by_cases hk : k = lang
    · subst hk
      by_cases hl : k = l2
      · subst hl
        have hh : h2 ≠ hash := by
          rcases hne with hl2 | hh2
          · exact absurd rfl hl2
          · exact hh2
        simp [cacheGet, cacheSet, lcGet_lcSet_ne _ _ _ _ hh]
      · simp [cacheGet, cacheSet, if_neg hl]
    · by_cases hl : k = l2
      · subst hl
        simp [cacheGet, cacheSet, if_neg hk]
      · simp [cacheGet, cacheSet, if_neg hk, if_neg hl, ih]

theorem cacheSet_idem (c : TranslationCache) (lang hash v : String) :
    cacheSet (cacheSet c lang hash v) lang hash v = cacheSet c lang hash v := by
  induction c with
  | nil => simp [cacheSet, lcSet_idem]
  | cons kv rest ih =>
    obtain ⟨k, m⟩ := kv
    by_cases hk : k = lang
    · subst hk
      simp [cacheSet, lcSet_idem]
    · simp [cacheSet, if_neg hk, ih]

/-! ### Store-level lemmas -/

theorem setCachedTranslation_of_writeFails (st : Store) (lang hash v : String)
    (hw : st.writeFails = true) : setCachedTranslation st lang hash v = st := by
  simp [setCachedTranslation, saveCache, localStorageSetItem, hw]

theorem setCachedTranslation_of_writeOk (st : Store) (lang hash v : String)
    (hw : st.writeFails = false) :
    setCachedTranslation st lang hash v =
      ⟨.stored (.wellFormed (cacheSet (loadCache st.outcome) lang hash v)), false⟩ := by
  cases st
  subst hw
  simp [setCachedTranslation, saveCache, localStorageSetItem]

theorem getCachedTranslation_setCachedTranslation_same (st : Store) (lang hash v : String)
    (hw : st.writeFails = false) :
    getCachedTranslation (setCachedTranslation st lang hash v) lang hash = some v := by
  rw [setCachedTranslation_of_writeOk st lang hash v hw]
  simp [getCachedTranslation, loadCache, localStorageGetItem, jsonParse, cacheGet_cacheSet_same]

theorem getCachedTranslation_setCachedTranslation_ne (st : Store) (lang hash v l2 h2 : String)
    (hne : l2 ≠ lang ∨ h2 ≠ hash) :
    getCachedTranslation (setCachedTranslation st lang hash v) l2 h2 =
      getCachedTranslation st l2 h2 := by
  cases hw : st.writeFails
  · rw [setCachedTranslation_of_writeOk st lang hash v hw]
    simp [getCachedTranslation, loadCache, localStorageGetItem, jsonParse,
      cacheGet_cacheSet_ne _ _ _ _ _ _ hne]
  · rw [setCachedTranslation_of_writeFails st lang hash v hw]

theorem setCachedTranslation_idem (st : Store) (lang hash v : String) :
    setCachedTranslation (setCachedTranslation st lang hash v) lang hash v =
      setCachedTranslation st lang hash v := by
  cases hw : st.writeFails
  · rw [setCachedTranslation_of_writeOk st lang hash v hw]
    rw [setCachedTranslation_of_writeOk _ lang hash v rfl]
    simp [loadCache, localStorageGetItem, jsonParse, cacheSet_idem]
  · rw [setCachedTranslation_of_writeFails st lang hash v hw,
      setCachedTranslation_of_writeFails st lang hash v hw]

/-! ### Branch lemmas for the coordinator -/

/-- `t` restated with the branch condition folded into `cacheTrusted`
(definitionally equal to the definition of `t`). -/
theorem t_eq (st : TState) (text : String) :
    t st text =
      if st.language == "en" then ⟨text, st.store, []⟩
      else
        if cacheTrusted (getCachedTranslation st.store st.language (hashText text))
            st.language then
          ⟨(getCachedTranslation st.store st.language (hashText text)).getD "", st.store,
            [.cacheRead st.language (hashText text)]⟩
        else
          ⟨(aiTranslate st.provider ⟨text, st.language⟩).1.translatedText,
            setCachedTranslation st.store st.language (hashText text)
              (aiTranslate st.provider ⟨text, st.language⟩).1.translatedText,
            .cacheRead st.language (hashText text) :: .aiCall text st.language ::
              ((aiTranslate st.provider ⟨text, st.language⟩).2 ++
                [.cacheWrite st.language (hashText text)
                  (aiTranslate st.provider ⟨text, st.language⟩).1.translatedText])⟩ := rfl

theorem cacheTrusted_some (c lang : String) (hne : c ≠ "")
    (hpre : jsStartsWith c ("[" ++ lang ++ "] ") = false) :
    cacheTrusted (some c) lang = true := by
  simp [cacheTrusted, truthy, hne, hpre]

theorem cacheTrusted_none (lang : String) : cacheTrusted none lang = false := rfl

theorem cacheTrusted_empty (lang : String) : cacheTrusted (some "") lang = false := rfl

theorem cacheTrusted_marker (c lang : String)
    (hpre : jsStartsWith c ("[" ++ lang ++ "] ") = true) :
    cacheTrusted (some c) lang = false := by
  by_cases hne : c = ""
  · subst hne; rfl
  · simp [cacheTrusted, truthy, hne, hpre]

theorem cacheTrusted_true_elim (cached : Option String) (lang : String)
    (h : cacheTrusted cached lang = true) :
    ∃ c, cached = some c ∧ c ≠ "" ∧ jsStartsWith c ("[" ++ lang ++ "] ") = false := by
  cases cached with
  | none => exact absurd h (by simp [cacheTrusted, truthy])
  | some c =>
    refine ⟨c, rfl, ?_, ?_⟩
    · intro hc
      subst hc
      exact absurd h (by simp [cacheTrusted, truthy])
    · by_cases hne : c = ""
      · subst hne
        exact absurd h (by simp [cacheTrusted, truthy])
      · simp [cacheTrusted, truthy, hne] at h
        simpa using h

theorem t_of_en (st : TState) (text : String) (h : st.language = "en") :
    t st text = ⟨text, st.store, []⟩ := by
  rw [t_eq, if_pos (by simp [h])]

theorem t_of_trusted (st : TState) (text c : String) (h : st.language ≠ "en")
    (hc : getCachedTranslation st.store st.language (hashText text) = some c)
    (htr : cacheTrusted (some c) st.language = true) :
    t st text = ⟨c, st.store, [.cacheRead st.language (hashText text)]⟩ := by
  rw [t_eq, if_neg (by simp [h]), hc, if_pos htr]
  rfl

theorem t_of_untrusted (st : TState) (text : String) (h : st.language ≠ "en")
    (htr : cacheTrusted (getCachedTranslation st.store st.language (hashText text))
      st.language = false) :
    t st text =
      ⟨(aiTranslate st.provider ⟨text, st.language⟩).1.translatedText,
        setCachedTranslation st.store st.language (hashText text)
          (aiTranslate st.provider ⟨text, st.language⟩).1.translatedText,
        .cacheRead st.language (hashText text) :: .aiCall text st.language ::
          ((aiTranslate st.provider ⟨text, st.language⟩).2 ++
            [.cacheWrite st.language (hashText text)
              (aiTranslate st.provider ⟨text, st.language⟩).1.translatedText])⟩ := by
  rw [t_eq, if_neg (by simp [h]), if_neg (by simp [htr])]

theorem hashStep_eq_spec (a : Int) (c : Nat) : hashStep a c = hashStepSpec a c := by
  unfold hashStep hashStepSpec toInt32
  omega

/-! ### Claim theorems -/

/-- Claim C6: `hashText` (the fingerprint) is pure and deterministic — equal
inputs give equal outputs — and for every string it equals the reference
rolling hash `hashTextSpec`: accumulator 0, step
`acc = (acc << 5) - acc + code` truncated to the signed 32-bit range after
every step, decimal string of the final accumulator. -/
theorem hashText_deterministic_and_spec :
    (∀ s1 s2 : String, s1 = s2 → hashText s1 = hashText s2) ∧
    ∀ s : String, hashText s = hashTextSpec s := by
  constructor
  · intro s1 s2 h
    rw [h]
  · intro s
    unfold hashText hashTextSpec
    have hf : hashStep = hashStepSpec :=
      funext fun a => funext fun c => hashStep_eq_spec a c
    rw [hf]

/-- Witness for C6 at the concrete input `"Hello"`. -/
theorem hashText_deterministic_and_spec_witness :
    hashText "Hello" = hashText "Hello" ∧ hashText "Hello" = hashTextSpec "Hello" :=
  ⟨hashText_deterministic_and_spec.1 "Hello" "Hello" rfl,
    hashText_deterministic_and_spec.2 "Hello"⟩

/-- Claim C9, evaluated at the failing input: with the stored blob being the
JSON text `null` — a corrupted blob whose deserialization succeeds — the
cache read raises (the uncaught TypeError at `cache[language]`) instead of
treating the blob as an empty cache; a throwing storage read, a blob whose
parse throws, and a blob parsing to a non-null primitive are all misses, as
the claim demands of every corrupted blob. -/
theorem getCachedTranslationJs_null_blob_raises :
    getCachedTranslationJs (.stored (.parsesTo .nullValue)) "es" "hash" = .error () ∧
    getCachedTranslationJs .raiseOnRead "es" "hash" = .ok none ∧
    getCachedTranslationJs (.stored .unparsable) "es" "hash" = .ok none ∧
    getCachedTranslationJs (.stored (.parsesTo .primitive)) "es" "hash" = .ok none ∧
    getCachedTranslationJs (.stored (.parsesTo (.object []))) "es" "hash" = .ok none :=
  ⟨rfl, rfl, rfl, rfl, rfl⟩

/-- Claim C10: `setCachedTranslation` is an idempotent upsert; absent storage
failure it changes only the written entry and leaves every other
(language, fingerprint) entry unchanged; entries are never deleted; and a
storage write failure is swallowed, leaving the store exactly as it was. -/
theorem setCachedTranslation_frame (st : Store) (lang hash v : String) :
    setCachedTranslation (setCachedTranslation st lang hash v) lang hash v =
      setCachedTranslation st lang hash v ∧
    (∀ l2 h2, l2 ≠ lang ∨ h2 ≠ hash →
      getCachedTranslation (setCachedTranslation st lang hash v) l2 h2 =
        getCachedTranslation st l2 h2) ∧
    (st.writeFails = false →
      getCachedTranslation (setCachedTranslation st lang hash v) lang hash = some v) ∧
    (st.writeFails = true → setCachedTranslation st lang hash v = st) ∧
    (∀ l2 h2 w, getCachedTranslation st l2 h2 = some w →
      ∃ u, getCachedTranslation (setCachedTranslation st lang hash v) l2 h2 = some u) := by
  refine ⟨setCachedTranslation_idem st lang hash v,
    fun l2 h2 hne => getCachedTranslation_setCachedTranslation_ne st lang hash v l2 h2 hne,
    fun hw => getCachedTranslation_setCachedTranslation_same st lang hash v hw,
    fun hw => setCachedTranslation_of_writeFails st lang hash v hw, ?_⟩
  intro l2 h2 w hw2
  by_cases hsame : l2 = lang ∧ h2 = hash
  · obtain ⟨hl, hh⟩ := hsame
    subst hl
    subst hh
    cases hwf : st.writeFails
    · exact ⟨v, getCachedTranslation_setCachedTranslation_same st l2 h2 v hwf⟩
    · refine ⟨w, ?_⟩
      rw [setCachedTranslation_of_writeFails st l2 h2 v hwf]
      exact hw2
  · have hne : l2 ≠ lang ∨ h2 ≠ hash := by tauto
    refine ⟨w, ?_⟩
    rw [getCachedTranslation_setCachedTranslation_ne st lang hash v l2 h2 hne]
    exact hw2

/-- Witness for C10 at concrete inputs: writing (es, "h") → "Hola" into an
empty store leaves (fr, "h") unchanged and makes (es, "h") read back "Hola". -/
theorem setCachedTranslation_frame_witness :
    getCachedTranslation (setCachedTranslation ⟨.missing, false⟩ "es" "h" "Hola") "fr" "h" =
      getCachedTranslation ⟨.missing, false⟩ "fr" "h" ∧
    getCachedTranslation (setCachedTranslation ⟨.missing, false⟩ "es" "h" "Hola") "es" "h" =
      some "Hola" :=
  ⟨(setCachedTranslation_frame ⟨.missing, false⟩ "es" "h" "Hola").2.1 "fr" "h"
      (Or.inl (by decide)),
    (setCachedTranslation_frame ⟨.missing, false⟩ "es" "h" "Hola").2.2.1 rfl⟩

/-- Claim C5: when the current language is `"en"`, `t(text)` resolves to the
input text unchanged, with the storage medium untouched and an empty event
log (no cache read, no cache write, no provider indirection). -/
theorem t_default_language (st : TState) (text : String) (h : st.language = "en") :
    t st text = ⟨text, st.store, []⟩ :=
  t_of_en st text h

/-- Witness for C5 at the concrete input `"Hello"` with language `"en"`. -/
theorem t_default_language_witness :
    t ⟨"en", none, ⟨.missing, false⟩⟩ "Hello" = ⟨"Hello", ⟨.missing, false⟩, []⟩ :=
  t_default_language ⟨"en", none, ⟨.missing, false⟩⟩ "Hello" rfl

/-- Claim C8: every `aiTranslate` result — success or fallback — carries the
fixed placeholder `detectedSourceLanguage = "en"`, and when a registered
provider resolves successfully the `translatedText` is exactly the provider's
returned string. -/
theorem aiTranslate_success_shape (prov : Option Provider) (req : AITranslationRequest) :
    (aiTranslate prov req).1.detectedSourceLanguage = some "en" ∧
    ∀ p s, prov = some p → p req.text req.targetLanguage = .ok s →
      (aiTranslate prov req).1.translatedText = s := by
  constructor
  · cases prov with
    | none => rfl
    | some p => cases hp : p req.text req.targetLanguage <;> simp [aiTranslate, hp]
  · intro p s hp hs
    subst hp
    simp [aiTranslate, hs]

/-- Witness for C8 with the identity-like provider at `("Hello", "es")`. -/
theorem aiTranslate_success_shape_witness :
    (aiTranslate (some fun s _ => Except.ok s) ⟨"Hello", "es"⟩).1.detectedSourceLanguage =
      some "en" ∧
    (aiTranslate (some fun s _ => Except.ok s) ⟨"Hello", "es"⟩).1.translatedText = "Hello" :=
  ⟨(aiTranslate_success_shape (some fun s _ => Except.ok s) ⟨"Hello", "es"⟩).1,
    (aiTranslate_success_shape (some fun s _ => Except.ok s) ⟨"Hello", "es"⟩).2
      (fun s _ => Except.ok s) "Hello" rfl rfl⟩

/-- Claim C1: for every state (any language, any provider registration and
behaviour, any storage read/write failure) `t(text)` resolves to some string:
the original text, a cached value, a provider translation, or the synthetic
fallback.  `t` is total by construction — every throwing primitive
(`localStorage` access, `JSON.parse`, the provider) is `Except`-modelled and
each failure path is absorbed exactly where the source catches it. -/
theorem t_always_resolves (st : TState) (text : String) :
    (t st text).value = text ∨
    getCachedTranslation st.store st.language (hashText text) = some (t st text).value ∨
    (∃ p s, st.provider = some p ∧ p text st.language = .ok s ∧ (t st text).value = s) ∨
    (t st text).value = fallbackText st.language text := by
  by_cases hen : st.language = "en"
  · left
    rw [t_of_en st text hen]
  · cases htr : cacheTrusted (getCachedTranslation st.store st.language (hashText text))
        st.language
    · rw [t_of_untrusted st text hen htr]
      cases hp : st.provider with
      | none =>
        right; right; right
        simp [aiTranslate, hp]
      | some p =>
        cases hs : p text st.language with
        | ok s =>
          right; right; left
          exact ⟨p, s, rfl, hs, by simp [aiTranslate, hs]⟩
        | error e =>
          right; right; right
          simp [aiTranslate, hp, hs]
    · obtain ⟨c, hc, hne, hpre⟩ := cacheTrusted_true_elim _ _ htr
      right; left
      rw [t_of_trusted st text c hen hc (hc ▸ htr)]
      exact hc

/-- Claim C3: for a non-`"en"` language, on a cache miss or a cached fallback
marker, `t(text)` calls the provider indirection `aiTranslate` with
(text, language), writes the resulting `translatedText` into the cache under
(language, fingerprint) — overwriting any prior entry — and resolves to that
`translatedText`; when the storage write succeeds, the cache afterwards holds
that value. -/
theorem t_miss_refetches (st : TState) (text : String) (h : st.language ≠ "en")
    (hc : getCachedTranslation st.store st.language (hashText text) = none ∨
      ∃ c, getCachedTranslation st.store st.language (hashText text) = some c ∧
        jsStartsWith c ("[" ++ st.language ++ "] ") = true) :
    (t st text).value = (aiTranslate st.provider ⟨text, st.language⟩).1.translatedText ∧
    (t st text).events =
      .cacheRead st.language (hashText text) :: .aiCall text st.language ::
        ((aiTranslate st.provider ⟨text, st.language⟩).2 ++
          [.cacheWrite st.language (hashText text)
            (aiTranslate st.provider ⟨text, st.language⟩).1.translatedText]) ∧
    (st.store.writeFails = false →
      getCachedTranslation (t st text).store st.language (hashText text) =
        some (aiTranslate st.provider ⟨text, st.language⟩).1.translatedText) := by
  have htr : cacheTrusted (getCachedTranslation st.store st.language (hashText text))
      st.language = false := by
    rcases hc with hnone | ⟨c, hsome, hpre⟩
    · rw [hnone]
      exact cacheTrusted_none _
    · rw [hsome]
      exact cacheTrusted_marker c st.language hpre
  rw [t_of_untrusted st text h htr]
  exact ⟨rfl, rfl, fun hw =>
    getCachedTranslation_setCachedTranslation_same st.store st.language (hashText text) _ hw⟩

/-- Witness for C3: a cached stale marker `"[es] Hello"` is superseded by the
provider's `"Hola"`, which is returned and persisted (self-healing). -/
theorem t_miss_refetches_witness :
    (t ⟨"es", some fun _ _ => Except.ok "Hola",
        ⟨.stored (.wellFormed [("es", [(hashText "Hello", "[es] Hello")])]), false⟩⟩
      "Hello").value = "Hola" ∧
    getCachedTranslation
      (t ⟨"es", some fun _ _ => Except.ok "Hola",
          ⟨.stored (.wellFormed [("es", [(hashText "Hello", "[es] Hello")])]), false⟩⟩
        "Hello").store "es" (hashText "Hello") = some "Hola" := by
  have h := t_miss_refetches
    ⟨"es", some fun _ _ => Except.ok "Hola",
      ⟨.stored (.wellFormed [("es", [(hashText "Hello", "[es] Hello")])]), false⟩⟩
    "Hello" (by decide)
    (Or.inr ⟨"[es] Hello", by decide, by decide⟩)
  exact ⟨h.1.trans rfl, (h.2.2 rfl).trans rfl⟩

/-- Claim C4: with no registered provider, or a provider that throws or
rejects, `aiTranslate` produces exactly the fallback
`"[" ++ targetLanguage ++ "] " ++ text` with the placeholder detected source
language; in that situation `t` (on a non-`"en"` language with no trusted
cache entry) resolves — it does not reject — to that fallback-marker string
and writes it to the cache. -/
theorem aiTranslate_fallback_shape :
    (∀ (prov : Option Provider) (text lang : String),
      (prov = none ∨ ∃ p, prov = some p ∧ ∃ e, p text lang = .error e) →
      (aiTranslate prov ⟨text, lang⟩).1 = ⟨fallbackText lang text, some "en"⟩) ∧
    ∀ (st : TState) (text : String), st.language ≠ "en" →
      (st.provider = none ∨ ∃ p, st.provider = some p ∧ ∃ e, p text st.language = .error e) →
      cacheTrusted (getCachedTranslation st.store st.language (hashText text))
        st.language = false →
      (t st text).value = fallbackText st.language text ∧
      Event.cacheWrite st.language (hashText text) (fallbackText st.language text) ∈
        (t st text).events ∧
      (st.store.writeFails = false →
        getCachedTranslation (t st text).store st.language (hashText text) =
          some (fallbackText st.language text)) := by
  have hfb : ∀ (prov : Option Provider) (text lang : String),
      (prov = none ∨ ∃ p, prov = some p ∧ ∃ e, p text lang = .error e) →
      (aiTranslate prov ⟨text, lang⟩).1 = ⟨fallbackText lang text, some "en"⟩ := by
    intro prov text lang hp
    rcases hp with hnone | ⟨p, hsome, e, herr⟩
    · subst hnone
      rfl
    · subst hsome
      simp [aiTranslate, herr]
  refine ⟨hfb, ?_⟩
  intro st text hen hp htr
  have hval : (aiTranslate st.provider ⟨text, st.language⟩).1.translatedText =
      fallbackText st.language text := by
    rw [hfb st.provider text st.language hp]
  rw [t_of_untrusted st text hen htr]
  refine ⟨hval, ?_, fun hw => ?_⟩
  · simp [hval]
  · have := getCachedTranslation_setCachedTranslation_same st.store st.language
      (hashText text) (aiTranslate st.provider ⟨text, st.language⟩).1.translatedText hw
    rw [hval] at this
    simpa [hval] using this

/-- Witness for C4: with no provider and language `"es"`, `t("Hello")`
resolves to `"[es] Hello"` and the cache then holds that value. -/
theorem aiTranslate_fallback_shape_witness :
    (aiTranslate none ⟨"Hello", "es"⟩).1 = ⟨fallbackText "es" "Hello", some "en"⟩ ∧
    (t ⟨"es", none, ⟨.missing, false⟩⟩ "Hello").value = fallbackText "es" "Hello" ∧
    getCachedTranslation (t ⟨"es", none, ⟨.missing, false⟩⟩ "Hello").store "es"
      (hashText "Hello") = some (fallbackText "es" "Hello") := by
  have h := aiTranslate_fallback_shape.2 ⟨"es", none, ⟨.missing, false⟩⟩ "Hello"
    (by decide) (Or.inl rfl) (by decide)
  exact ⟨aiTranslate_fallback_shape.1 none "Hello" "es" (Or.inl rfl), h.1, h.2.2 rfl⟩

/-- Claim C2, counterexample: a cached value can exist and not start with
`"[es] "` and yet not be returned from cache.  With the empty string cached
for (es, fingerprint("Hello")), `cached && !isFallback` is falsy in
JavaScript, so `t` proceeds to the provider indirection (no provider here,
hence the fallback) instead of returning the cached `""`. -/
theorem t_cache_shortcircuit_counterexample :
    getCachedTranslation ⟨.stored (.wellFormed [("es", [(hashText "Hello", "")])]), false⟩
      "es" (hashText "Hello") = some "" ∧
    jsStartsWith "" ("[es] ") = false ∧
    (t ⟨"es", none, ⟨.stored (.wellFormed [("es", [(hashText "Hello", "")])]), false⟩⟩
      "Hello").value = "[es] Hello" ∧
    (t ⟨"es", none, ⟨.stored (.wellFormed [("es", [(hashText "Hello", "")])]), false⟩⟩
      "Hello").events ≠ [Event.cacheRead "es" (hashText "Hello")] := by
  refine ⟨by decide, by decide, by decide, by decide⟩

/-- Claim C2 as amended: for a non-`"en"` language, `t(text)` returns the
cached value immediately — store untouched, the lone event a cache read — if
and only if a cached value exists, is non-empty, and does not start with
`"[" ++ language ++ "] "`.  In particular a genuine cached translation that
happens to begin with that prefix is not returned from cache. -/
theorem t_cache_shortcircuit_amended (st : TState) (text : String)
    (h : st.language ≠ "en") :
    (∃ c, getCachedTranslation st.store st.language (hashText text) = some c ∧ c ≠ "" ∧
      jsStartsWith c ("[" ++ st.language ++ "] ") = false) ↔
    ((t st text).store = st.store ∧
      (t st text).events = [.cacheRead st.language (hashText text)] ∧
      getCachedTranslation st.store st.language (hashText text) = some (t st text).value) := by
  constructor
  · rintro ⟨c, hc, hne, hpre⟩
    rw [t_of_trusted st text c h hc (cacheTrusted_some c st.language hne hpre)]
    exact ⟨rfl, rfl, hc⟩
  · intro hrhs
    cases htr : cacheTrusted (getCachedTranslation st.store st.language (hashText text))
        st.language
    · exfalso
      have hev := hrhs.2.1
      rw [t_of_untrusted st text h htr] at hev
      simp at hev
    · exact cacheTrusted_true_elim _ _ htr

/-- Witness for the amended C2: a trusted cached `"Hola"` short-circuits
everything — store unchanged, a single cache-read event, value from cache. -/
theorem t_cache_shortcircuit_amended_witness :
    (t ⟨"es", none, ⟨.stored (.wellFormed [("es", [(hashText "Hello", "Hola")])]), false⟩⟩
      "Hello").store =
      ⟨.stored (.wellFormed [("es", [(hashText "Hello", "Hola")])]), false⟩ ∧
    (t ⟨"es", none, ⟨.stored (.wellFormed [("es", [(hashText "Hello", "Hola")])]), false⟩⟩
      "Hello").events = [.cacheRead "es" (hashText "Hello")] ∧
    getCachedTranslation ⟨.stored (.wellFormed [("es", [(hashText "Hello", "Hola")])]), false⟩
      "es" (hashText "Hello") =
      some (t ⟨"es", none,
        ⟨.stored (.wellFormed [("es", [(hashText "Hello", "Hola")])]), false⟩⟩
        "Hello").value :=
  (t_cache_shortcircuit_amended
    ⟨"es", none, ⟨.stored (.wellFormed [("es", [(hashText "Hello", "Hola")])]), false⟩⟩
    "Hello" (by decide)).mp ⟨"Hola", by decide, by decide, by decide⟩

/-- Claim C7, counterexample: a registered provider whose returned
translation itself starts with the fallback marker `"[es] "` is invoked on
both of two sequential `t` calls — the first call caches the marker-shaped
string, the second treats it as a stale fallback and re-invokes the
provider — so "invoked at most once" fails (the two results still agree). -/
theorem t_idempotent_counterexample :
    (t (afterT ⟨"es", some fun _ _ => Except.ok "[es] Hola", ⟨.missing, false⟩⟩
        (t ⟨"es", some fun _ _ => Except.ok "[es] Hola", ⟨.missing, false⟩⟩ "Hello"))
      "Hello").value =
      (t ⟨"es", some fun _ _ => Except.ok "[es] Hola", ⟨.missing, false⟩⟩ "Hello").value ∧
    countProviderCalls
      ((t ⟨"es", some fun _ _ => Except.ok "[es] Hola", ⟨.missing, false⟩⟩ "Hello").events ++
        (t (afterT ⟨"es", some fun _ _ => Except.ok "[es] Hola", ⟨.missing, false⟩⟩
            (t ⟨"es", some fun _ _ => Except.ok "[es] Hola", ⟨.missing, false⟩⟩ "Hello"))
          "Hello").events) = 2 := by
  refine ⟨by decide, by decide⟩

/-- Claim C7 as amended: with a registered provider, an unchanged language
and no storage write failure, two sequential `t` calls for the same text
yield identical results; and the provider is invoked at most once across the
two calls provided the string it returns for (text, language) is non-empty
and does not start with `"[" ++ language ++ "] "` (a marker-shaped or empty
provider result is re-requested on the second call). -/
theorem t_idempotent_amended (st : TState) (p : Provider) (text : String)
    (hp : st.provider = some p) (hw : st.store.writeFails = false) :
    (t (afterT st (t st text)) text).value = (t st text).value ∧
    ∀ s, p text st.language = .ok s → s ≠ "" →
      jsStartsWith s ("[" ++ st.language ++ "] ") = false →
      countProviderCalls ((t st text).events ++ (t (afterT st (t st text)) text).events) ≤ 1 := by
  by_cases hen : st.language = "en"
  · have h1 : t st text = ⟨text, st.store, []⟩ := t_of_en st text hen
    have h2 : afterT st (t st text) = st := by
      rw [h1]
      rfl
    constructor
    · rw [h2]
    · intro s _ _ _
      rw [h2, h1]
      simp [countProviderCalls]
  · cases htr : cacheTrusted (getCachedTranslation st.store st.language (hashText text))
        st.language
    · -- first call misses (or sees a stale marker) and consults the provider
      have h1 : t st text =
          ⟨(aiTranslate st.provider ⟨text, st.language⟩).1.translatedText,
            setCachedTranslation st.store st.language (hashText text)
              (aiTranslate st.provider ⟨text, st.language⟩).1.translatedText,
            .cacheRead st.language (hashText text) :: .aiCall text st.language ::
              ((aiTranslate st.provider ⟨text, st.language⟩).2 ++
                [.cacheWrite st.language (hashText text)
                  (aiTranslate st.provider ⟨text, st.language⟩).1.translatedText])⟩ :=
        t_of_untrusted st text hen htr
      have h2 : afterT st (t st text) =
          ⟨st.language, st.provider,
            setCachedTranslation st.store st.language (hashText text)
              (aiTranslate st.provider ⟨text, st.language⟩).1.translatedText⟩ := by
        rw [h1]
        rfl
      have hcached2 : getCachedTranslation
          (setCachedTranslation st.store st.language (hashText text)
            (aiTranslate st.provider ⟨text, st.language⟩).1.translatedText)
          st.language (hashText text) =
          some (aiTranslate st.provider ⟨text, st.language⟩).1.translatedText :=
        getCachedTranslation_setCachedTranslation_same st.store st.language (hashText text) _ hw
      cases htr2 : cacheTrusted
          (some (aiTranslate st.provider ⟨text, st.language⟩).1.translatedText) st.language
      · -- the fresh result is itself untrusted: second call consults again
        have h3 : t (⟨st.language, st.provider,
            setCachedTranslation st.store st.language (hashText text)
              (aiTranslate st.provider ⟨text, st.language⟩).1.translatedText⟩ : TState)
            text =
            ⟨(aiTranslate st.provider ⟨text, st.language⟩).1.translatedText,
              setCachedTranslation
                (setCachedTranslation st.store st.language (hashText text)
                  (aiTranslate st.provider ⟨text, st.language⟩).1.translatedText)
                st.language (hashText text)
                (aiTranslate st.provider ⟨text, st.language⟩).1.translatedText,
              .cacheRead st.language (hashText text) :: .aiCall text st.language ::
                ((aiTranslate st.provider ⟨text, st.language⟩).2 ++
                  [.cacheWrite st.language (hashText text)
                    (aiTranslate st.provider ⟨text, st.language⟩).1.translatedText])⟩ :=
          t_of_untrusted _ text hen (by
            show cacheTrusted (getCachedTranslation
              (setCachedTranslation st.store st.language (hashText text)
                (aiTranslate st.provider ⟨text, st.language⟩).1.translatedText)
              st.language (hashText text)) st.language = false
            rw [hcached2]
            exact htr2)
        constructor
        · rw [h2, h3, h1]
        · intro s hs hne hpre
          exfalso
          have hv0 : (aiTranslate st.provider ⟨text, st.language⟩).1.translatedText = s := by
            simp [aiTranslate, hp, hs]
          rw [hv0] at htr2
          rw [cacheTrusted_some s st.language hne hpre] at htr2
          simp at htr2
      · -- the fresh result is trusted: second call reads it from cache
        have h3 : t (⟨st.language, st.provider,
            setCachedTranslation st.store st.language (hashText text)
              (aiTranslate st.provider ⟨text, st.language⟩).1.translatedText⟩ : TState)
            text =
            ⟨(aiTranslate st.provider ⟨text, st.language⟩).1.translatedText,
              setCachedTranslation st.store st.language (hashText text)
                (aiTranslate st.provider ⟨text, st.language⟩).1.translatedText,
              [.cacheRead st.language (hashText text)]⟩ :=
          t_of_trusted _ text _ hen hcached2 htr2
        constructor
        · rw [h2, h3, h1]
        · intro s hs hne hpre
          rw [h2, h3, h1]
          cases hres : p text st.language <;>
            simp [countProviderCalls, aiTranslate, hp, hres, List.countP_append,
              List.countP_cons]
    · -- first call is served from the trusted cache; so is the second
      obtain ⟨c, hc, hne, hpre⟩ := cacheTrusted_true_elim _ _ htr
      have h1 : t st text = ⟨c, st.store, [.cacheRead st.language (hashText text)]⟩ :=
        t_of_trusted st text c hen hc (hc ▸ htr)
      have h2 : afterT st (t st text) = st := by
        rw [h1]
        rfl
      constructor
      · rw [h2]
      · intro s _ _ _
        rw [h2, h1]
        simp [countProviderCalls]

/-- Witness for the amended C7: provider returning `"Hola"`, two sequential
calls — equal values, one provider invocation in total. -/
theorem t_idempotent_amended_witness :
    (t (afterT ⟨"es", some fun _ _ => Except.ok "Hola", ⟨.missing, false⟩⟩
        (t ⟨"es", some fun _ _ => Except.ok "Hola", ⟨.missing, false⟩⟩ "Hello"))
      "Hello").value =
      (t ⟨"es", some fun _ _ => Except.ok "Hola", ⟨.missing, false⟩⟩ "Hello").value ∧
    countProviderCalls
      ((t ⟨"es", some fun _ _ => Except.ok "Hola", ⟨.missing, false⟩⟩ "Hello").events ++
        (t (afterT ⟨"es", some fun _ _ => Except.ok "Hola", ⟨.missing, false⟩⟩
            (t ⟨"es", some fun _ _ => Except.ok "Hola", ⟨.missing, false⟩⟩ "Hello"))
          "Hello").events) ≤ 1 := by
  have h := t_idempotent_amended ⟨"es", some fun _ _ => Except.ok "Hola", ⟨.missing, false⟩⟩
    (fun _ _ => Except.ok "Hola") "Hello" rfl rfl
  exact ⟨h.1, h.2 "Hola" rfl (by decide) (by decide)⟩

end ReactI18nAi
